import Mathlib

/-!
A shallow embedding of the `drbg.py` DRBG library: the byte/integer codec,
the three generator families (CTR_DRBG, Hash_DRBG, HMAC_DRBG), the shared
generate/reseed protocol of the `DRBG` base class, the auto-reseeding
`RandomByteGenerator` wrapper and the `new` factory, together with theorems
settling the spec's claims about them.

Modelling conventions:
* byte strings are `List Nat` (one entry per byte);
* the hash, HMAC and block-cipher primitives are opaque function parameters
  (`digest`, `mac`, `encrypt`), exactly as the spec treats them
  ("opaque compression functions", "opaque keyed encrypt-a-block function");
* Python exceptions become an `Err` inductive; raising is returning
  `Except.error`;
* Python's `None`-or-bytes arguments become `Option Bytes`; Python
  truthiness of such an argument (`if data:`) is `truthy`;
* unbounded `while` loops become fuel-bounded recursion; running out of
  fuel is the distinguished `Err.outOfFuel`, never produced on the
  validated paths (the fuel passed at each call site dominates the number
  of iterations the Python loop performs there);
* the `isinstance(..., (bytes, bytearray))` `TypeError` checks are not
  representable (every value of the model is already a byte string) and
  are omitted; no claim depends on them.
-/

namespace Drbg

/-- Byte strings: one `Nat` per byte. -/
abbrev Bytes := List Nat

/-- `MAX_ENTROPY_LENGTH = 2**21` from the source. -/
def MAX_ENTROPY_LENGTH : Nat := 2 ^ 21

/-- `RESEED_INTERVAL = 2` from the source (the commented-out value is `2**24`). -/
def RESEED_INTERVAL : Nat := 2

/-- The exceptions the library raises.  `countOutOfRange`, `tooMuchData`,
`entropyLength`, `unknownCipher` and `unsupportedDigest` are the
`ValueError`/`RuntimeError` raise sites of the source; `reseedRequired` is the
`ReseedRequired` control signal; `outOfFuel` marks fuel exhaustion of a
modelled `while` loop (i.e. divergence of the Python loop). -/
inductive Err where
  | countOutOfRange
  | tooMuchData
  | entropyLength
  | unknownCipher
  | unsupportedDigest
  | reseedRequired
  | outOfFuel
  deriving DecidableEq

instance {ε α : Type} [DecidableEq ε] [DecidableEq α] : DecidableEq (Except ε α) :=
  fun a b =>
    match a, b with
    | .ok x, .ok y =>
      if h : x = y then .isTrue (by rw [h]) else .isFalse (by simp [h])
    | .error x, .error y =>
      if h : x = y then .isTrue (by rw [h]) else .isFalse (by simp [h])
    | .ok _, .error _ => .isFalse (by simp)
    | .error _, .ok _ => .isFalse (by simp)

/-- Python truthiness of an optional byte string: `None` and `b''` are falsy. -/
def truthy (data : Option Bytes) : Bool :=
  match data with
  | none => false
  | some b => !b.isEmpty

/-- The `len(data) > MAX_ENTROPY_LENGTH` test of `DRBG.generate`
(`None` trivially passes). -/
def oversized (data : Option Bytes) : Bool :=
  match data with
  | none => false
  | some d => decide (d.length > MAX_ENTROPY_LENGTH)

/-! ## Byte/Integer codec (`bytes2long`, `long2bytes`, `bytepad`, `strxor`) -/

/-- `bytes2long`: big-endian unsigned interpretation of a byte string. -/
def bytes2long (b : Bytes) : Nat :=
  b.foldl (fun acc x => acc * 256 + x) 0

def long2bytesGo : Nat → Nat → Bytes
  | 0, _ => []
  | fuel + 1, n => if n = 0 then [] else long2bytesGo fuel (n / 256) ++ [n % 256]

/-- Minimal big-endian encoding of `n`; `[]` for `0`.  Structured with a
fuel argument (`n` itself bounds the number of base-256 digits) so that the
recursion is structural and computations reduce inside proofs. -/
def long2bytesAux (n : Nat) : Bytes := long2bytesGo n n

/-- `long2bytes`: the Python implementation goes through `hex(l)`, producing
the minimal big-endian encoding of `l`, with the value `0` encoding as the
single byte `0x00`. -/
def long2bytes (n : Nat) : Bytes :=
  if n = 0 then [0] else long2bytesAux n

/-- `bytepad(b, L)`: left-pad `b` with zero bytes to length `L`
(unchanged when already at least `L` long). -/
def bytepad (b : Bytes) (L : Nat) : Bytes :=
  if b.length < L then List.replicate (L - b.length) 0 ++ b else b

/-- `strxor`: byte-wise xor (the source's inputs always have equal length). -/
def strxor (a b : Bytes) : Bytes :=
  List.zipWith (fun x y => Nat.xor x y) a b

lemma bytes2long_foldl (l : Bytes) (acc : Nat) :
    l.foldl (fun a x => a * 256 + x) acc
      = acc * 256 ^ l.length + l.foldl (fun a x => a * 256 + x) 0 := by
  induction l generalizing acc with
  | nil => simp
  | cons x xs ih =>
    simp only [List.foldl_cons, List.length_cons, Nat.zero_mul, Nat.zero_add]
    rw [ih (acc * 256 + x), ih x]
    ring

lemma bytes2long_append (a b : Bytes) :
    bytes2long (a ++ b) = bytes2long a * 256 ^ b.length + bytes2long b := by
  unfold bytes2long
  rw [List.foldl_append, bytes2long_foldl]

lemma bytes2long_replicate_zero (k : Nat) :
    bytes2long (List.replicate k 0) = 0 := by
  induction k with
  | zero => rfl
  | succ n ih =>
    simp only [List.replicate_succ, bytes2long, List.foldl_cons]
    simpa [bytes2long] using ih

lemma bytes2long_bytepad (b : Bytes) (L : Nat) :
    bytes2long (bytepad b L) = bytes2long b := by
  unfold bytepad
  split
  · rw [bytes2long_append, bytes2long_replicate_zero]
    simp
  · rfl

lemma bytes2long_long2bytesGo :
    ∀ fuel n, n ≤ fuel → bytes2long (long2bytesGo fuel n) = n := by
  intro fuel
  induction fuel with
  | zero =>
    intro n h
    have : n = 0 := by omega
    subst this
    rfl
  | succ f ih =>
    intro n h
    rw [long2bytesGo]
    split
    · rename_i h0
      subst h0
      rfl
    · rename_i h0
      have hlt : n / 256 < n := Nat.div_lt_self (Nat.pos_of_ne_zero h0) (by norm_num)
      rw [bytes2long_append, ih (n / 256) (by omega)]
      simp [bytes2long]
      omega

lemma bytes2long_long2bytesAux (n : Nat) :
    bytes2long (long2bytesAux n) = n :=
  bytes2long_long2bytesGo n n (Nat.le_refl n)

lemma bytes2long_long2bytes (n : Nat) :
    bytes2long (long2bytes n) = n := by
  unfold long2bytes
  split
  · simp [bytes2long, *]
  · exact bytes2long_long2bytesAux n

/-- Decoding a left-padded minimal encoding recovers the value: the padded
fixed-width re-encoding used throughout the library is value-faithful. -/
lemma bytes2long_bytepad_long2bytes (n L : Nat) :
    bytes2long (bytepad (long2bytes n) L) = n := by
  rw [bytes2long_bytepad, bytes2long_long2bytes]

/-! ## The `DRBG` base class: shared `generate`/`reseed` protocol

The Python base class owns the count check, the additional-input length
check, the reseed-counter check, the post-generate counter increment and
the post-reseed counter reset; the families supply `_generate`/`_reseed`
bodies.  We model this sharing generically: a family instantiates
`drbgGenerate`/`drbgReseed` with its body and its counter accessors. -/

/-- `DRBG.generate` (lines 156-184 of the source): count range check, the
additional-input length check, the `ReseedRequired` check, then the
family-specific `_generate`, then `reseed_counter += 1`. -/
def drbgGenerate {St : Type} (maxRequestSize : Nat)
    (genBody : St → Nat → Option Bytes → Except Err (Bytes × St))
    (getCounter : St → Nat) (setCounter : St → Nat → St)
    (st : St) (count : Nat) (data : Option Bytes) : Except Err (Bytes × St) :=
  if 0 < count ∧ count < maxRequestSize then
    if oversized data then .error .tooMuchData
    else if getCounter st > RESEED_INTERVAL then .error .reseedRequired
    else
      match genBody st count data with
      | .error e => .error e
      | .ok (out, st') => .ok (out, setCounter st' (getCounter st + 1))
  else .error .countOutOfRange

/-- `DRBG.reseed` (lines 186-204): the family-specific `_reseed`, then
`reseed_counter = 1`.  (`HMACDRBG` overrides `reseed` itself and does not go
through this path.) -/
def drbgReseed {St : Type}
    (reseedBody : St → Bytes → Option Bytes → Except Err St)
    (setCounter : St → Nat → St)
    (st : St) (entropy : Bytes) (data : Option Bytes) : Except Err St :=
  match reseedBody st entropy data with
  | .error e => .error e
  | .ok st' => .ok (setCounter st' 1)

/-! ## CTR_DRBG -/

/-- Internal state of `CTRDRBG`: the cipher key length in bits (128, 192 or
256 for the supported AES variants), `Key`, `V` and the inherited
`reseed_counter`.  `outlen` is fixed at 128 bits for AES and
`seedlen = (outlen + keylen) // 8` bytes. -/
structure CTRState where
  keylen : Nat
  key : Bytes
  V : Bytes
  reseed_counter : Nat
  deriving DecidableEq

/-- `seedlen = (self.outlen + self.keylen) // 8` in bytes (`outlen = 128`). -/
def ctrSeedlen (keylen : Nat) : Nat := (128 + keylen) / 8

/-- `max_request_size = 2**13` bytes for the AES-based family. -/
def ctrMaxRequestSize : Nat := 2 ^ 13

/-- The `while len(temp) < self.seedlen` loop of `CTRDRBG.__update`:
increment `V` mod `2**outlen` (stored unpadded, padded at encryption time)
and append the encryption of the padded `V`.  Fuel-bounded; returns the
accumulated `temp` and the final (unpadded) `V`. -/
def ctrUpdateLoop (encrypt : Bytes → Bytes → Bytes) (key : Bytes) (seedlen : Nat) :
    Nat → Bytes → Bytes → Option (Bytes × Bytes)
  | 0, temp, V => if temp.length < seedlen then none else some (temp, V)
  | fuel + 1, temp, V =>
    if temp.length < seedlen then
      let V' := long2bytes ((bytes2long V + 1) % 2 ^ 128)
      ctrUpdateLoop encrypt key seedlen fuel (temp ++ encrypt key (bytepad V' 16)) V'
    else some (temp, V)

/-- `CTRDRBG.__update(provided_data, Key, V)`: run the generation loop until
`seedlen` bytes, xor with `provided_data` left-padded to `seedlen`, split
into the new `Key` (leading `keylen // 8` bytes) and new `V` (trailing
`outlen // 8 = 16` bytes).  Fuel `seedlen` dominates the loop (each
iteration of the Python loop appends one 16-byte cipher block). -/
def ctrUpdate (encrypt : Bytes → Bytes → Bytes) (keylen : Nat)
    (provided key V : Bytes) : Except Err (Bytes × Bytes) :=
  let seedlen := ctrSeedlen keylen
  match ctrUpdateLoop encrypt key seedlen seedlen [] V with
  | none => .error .outOfFuel
  | some (temp, _) =>
    let t := strxor (temp.take seedlen) (bytepad provided seedlen)
    .ok (t.take (keylen / 8), t.drop (t.length - 16))

/-- The supported cipher names (`CIPHERS` in the source), as character
lists. -/
def CIPHERS : List (List Char) := ["aes128".data, "aes192".data, "aes256".data]

/-- `int(name[3:])` for the supported cipher names: decimal digits to a
number. -/
def digitsToNat (s : List Char) : Nat :=
  s.foldl (fun acc c => acc * 10 + (c.toNat - 48)) 0

/-- ASCII lowering of one character (`str.lower` on the names the library
handles). -/
def lowerChar (c : Char) : Char :=
  if 'A' ≤ c ∧ c ≤ 'Z' then Char.ofNat (c.toNat + 32) else c

/-- `name.lower()` on a character list. -/
def strLower (s : List Char) : List Char := s.map lowerChar

/-- `CTRDRBG.__init__(name, entropy, data)`: cipher lookup, entropy length
check (`len(entropy) != seedlen` raises), optional personalization
(`len(data) > seedlen` raises; otherwise left-padded to the entropy length
and xored in), then `__update` from the all-zero `Key`/`V`. -/
def ctrInit (encrypt : Bytes → Bytes → Bytes) (name : String)
    (entropy : Bytes) (data : Option Bytes) : Except Err CTRState :=
  let nm := strLower name.data
  if nm ∈ CIPHERS then
    let keylen := digitsToNat (nm.drop 3)
    let seedlen := ctrSeedlen keylen
    if entropy.length = seedlen then
      let check : Except Err Bytes :=
        if truthy data then
          let d := data.getD []
          if d.length > seedlen then .error .tooMuchData
          else .ok (strxor entropy (bytepad d entropy.length))
        else .ok entropy
      match check with
      | .error e => .error e
      | .ok seed_material =>
        match ctrUpdate encrypt keylen seed_material
            (List.replicate (keylen / 8) 0) (List.replicate 16 0) with
        | .error e => .error e
        | .ok (K, V) => .ok ⟨keylen, K, V, 1⟩
    else .error .entropyLength
  else .error .unknownCipher

/-- The `while len(temp) < count` loop of `CTRDRBG._generate`: increment `V`
mod `2**outlen` (padded back to 16 bytes before storing) and append one
cipher block.  Fuel-bounded; fuel `count` dominates the Python loop whenever
the cipher emits at least one byte per block. -/
def ctrGenLoop (encrypt : Bytes → Bytes → Bytes) (key : Bytes) (count : Nat) :
    Nat → Bytes → Bytes → Option (Bytes × Bytes)
  | 0, temp, V => if temp.length < count then none else some (temp, V)
  | fuel + 1, temp, V =>
    if temp.length < count then
      let V' := bytepad (long2bytes ((bytes2long V + 1) % 2 ^ 128)) 16
      ctrGenLoop encrypt key count fuel (temp ++ encrypt key V') V'
    else some (temp, V)

/-- `CTRDRBG._generate(count, data)`: additional-input length check against
`seedlen`, optional pre-update with the input padded with trailing zeros,
the generation loop, the final state-refresh `__update`, and truncation to
`count` bytes. -/
def ctrGenBody (encrypt : Bytes → Bytes → Bytes) (st : CTRState)
    (count : Nat) (data : Option Bytes) : Except Err (Bytes × CTRState) :=
  let seedlen := ctrSeedlen st.keylen
  if truthy data ∧ (data.getD []).length > seedlen then .error .tooMuchData
  else
    let padded : Option Bytes :=
      if truthy data then
        some ((data.getD []) ++ List.replicate (seedlen - (data.getD []).length) 0)
      else none
    let start : Except Err (Bytes × Bytes) :=
      match padded with
      | some d => ctrUpdate encrypt st.keylen d st.key st.V
      | none => .ok (st.key, st.V)
    match start with
    | .error e => .error e
    | .ok (K, V) =>
      match ctrGenLoop encrypt K count count [] V with
      | none => .error .outOfFuel
      | some (temp, V') =>
        match ctrUpdate encrypt st.keylen (padded.getD []) K V' with
        | .error e => .error e
        | .ok (K'', V'') =>
          .ok (temp.take count, { st with key := K'', V := V'' })

/-- `CTRDRBG.generate`: the base-class protocol over `ctrGenBody`. -/
def ctrGenerate (encrypt : Bytes → Bytes → Bytes) (st : CTRState)
    (count : Nat) (data : Option Bytes) : Except Err (Bytes × CTRState) :=
  drbgGenerate ctrMaxRequestSize (ctrGenBody encrypt)
    (fun s => s.reseed_counter) (fun s n => { s with reseed_counter := n })
    st count data

/-- `CTRDRBG._reseed(entropy, data)`: additional-input length check against
`seedlen`, the `len(entropy) != seedlen` check, xor combination, and
`__update`. -/
def ctrReseedBody (encrypt : Bytes → Bytes → Bytes) (st : CTRState)
    (entropy : Bytes) (data : Option Bytes) : Except Err CTRState :=
  let seedlen := ctrSeedlen st.keylen
  if truthy data ∧ (data.getD []).length > seedlen then .error .tooMuchData
  else if entropy.length ≠ seedlen then .error .entropyLength
  else
    let seed_material :=
      if truthy data then strxor entropy (bytepad (data.getD []) seedlen)
      else entropy
    match ctrUpdate encrypt st.keylen seed_material st.key st.V with
    | .error e => .error e
    | .ok (K, V) => .ok { st with key := K, V := V }

/-- `CTRDRBG.reseed`: the base-class protocol over `ctrReseedBody` (resets
the counter to 1 on success). -/
def ctrReseed (encrypt : Bytes → Bytes → Bytes) (st : CTRState)
    (entropy : Bytes) (data : Option Bytes) : Except Err CTRState :=
  drbgReseed (ctrReseedBody encrypt)
    (fun s n => { s with reseed_counter := n }) st entropy data

/-! ## Hash_DRBG -/

/-- The supported digest names (`DIGESTS` in the source), as character
lists. -/
def DIGESTS : List (List Char) :=
  ["sha1".data, "sha224".data, "sha256".data, "sha384".data, "sha512".data]

/-- Internal state of `HashDRBG`: `outlen` in bits (8 times the digest
size), `V`, the constant `C`, and the inherited `reseed_counter`. -/
structure HashState where
  outlen : Nat
  V : Bytes
  C : Bytes
  reseed_counter : Nat
  deriving DecidableEq

/-- `seedlen = 888 if outlen > 256 else 440` (bits). -/
def hashSeedlen (outlen : Nat) : Nat := if outlen > 256 then 888 else 440

/-- `max_request_size = 2**16` bytes for the hash and HMAC families. -/
def hashMaxRequestSize : Nat := 2 ^ 16

/-- `HashDRBG.__df(input_string, output_bitlen)`: `ceil(output_bitlen /
outlen)` digest calls over `byte((counter + 1) mod 255) ++ bytepad(
long2bytes(output_bitlen), 4) ++ input_string`, concatenated and truncated
to `(output_bitlen + 4) // 8` bytes. -/
def hashDF (digest : Bytes → Bytes) (outlen : Nat)
    (input : Bytes) (output_bitlen : Nat) : Bytes :=
  let iterations := (output_bitlen + outlen - 1) / outlen
  let out := (List.range iterations).foldl
    (fun acc counter =>
      acc ++ digest (((counter + 1) % 255) :: (bytepad (long2bytes output_bitlen) 4 ++ input)))
    []
  out.take ((output_bitlen + 4) / 8)

/-- `HashDRBG.__init__(name, entropy, nonce, data)`: digest lookup
(`RuntimeError` when unknown), `outlen = 8 * digest_size`,
`V = df(entropy + nonce + data, seedlen)`, `C = df(0x00 + V, seedlen)`,
`reseed_counter = 1`.  The digest size is read off the opaque digest
function as the length of the digest of the empty string
(`self.digest().digest_size`). -/
def hashInit (digest : Bytes → Bytes) (name : String)
    (entropy nonce : Bytes) (data : Option Bytes) : Except Err HashState :=
  if name.data ∈ DIGESTS then
    let outlen := 8 * (digest []).length
    let seedlen := hashSeedlen outlen
    let d := data.getD []
    let V := hashDF digest outlen (entropy ++ nonce ++ d) seedlen
    let C := hashDF digest outlen (0 :: V) seedlen
    .ok ⟨outlen, V, C, 1⟩
  else .error .unsupportedDigest

/-- `HashDRBG._reseed(entropy, data)`:
`V = df(0x01 + V + entropy + data, seedlen)`, `C = df(0x00 + V, seedlen)`.
Note: no length check of any kind is performed here. -/
def hashReseedBody (digest : Bytes → Bytes) (st : HashState)
    (entropy : Bytes) (data : Option Bytes) : Except Err HashState :=
  let seedlen := hashSeedlen st.outlen
  let d := data.getD []
  let V := hashDF digest st.outlen (1 :: (st.V ++ entropy ++ d)) seedlen
  let C := hashDF digest st.outlen (0 :: V) seedlen
  .ok { st with V := V, C := C }

/-- `HashDRBG.reseed`: the base-class protocol over `hashReseedBody`. -/
def hashReseed (digest : Bytes → Bytes) (st : HashState)
    (entropy : Bytes) (data : Option Bytes) : Except Err HashState :=
  drbgReseed (hashReseedBody digest)
    (fun s n => { s with reseed_counter := n }) st entropy data

/-- The `hashgen` inner loop of `HashDRBG._generate`: `m` rounds of
digesting `bytepad(data, seedlen // 8)` and stepping
`data = long2bytes((bytes2long(data) + 1) % 2**seedlen)` (the stepped value
is stored unpadded; padding happens at digest time). -/
def hashgenLoop (digest : Bytes → Bytes) (seedlen : Nat) :
    Nat → Bytes → Bytes → Bytes
  | 0, _, w => w
  | m + 1, dataV, w =>
    hashgenLoop digest seedlen m
      (long2bytes ((bytes2long dataV + 1) % 2 ^ seedlen))
      (w ++ digest (bytepad dataV (seedlen / 8)))

/-- The additional-input step of `HashDRBG._generate`: for `data is not
None` (including `b''`!), `w = digest(0x02 + V + data)` and
`V = (V + w) mod 2**seedlen`, re-padded to `seedlen // 8` bytes; for `None`,
`V` unchanged. -/
def hashAdditionalV (digest : Bytes → Bytes) (seedlen : Nat)
    (V : Bytes) (data : Option Bytes) : Bytes :=
  match data with
  | none => V
  | some d =>
    let w := digest (2 :: (V ++ d))
    bytepad (long2bytes ((bytes2long V + bytes2long w) % 2 ^ seedlen)) (seedlen / 8)

/-- `HashDRBG._generate(count, data)`: the additional-input step, `hashgen`
with `m = ceil(8 * count / outlen)` rounds truncated to `count` bytes, then
the state update `V = (V + H + C + reseed_counter) mod 2**seedlen` with
`H = digest(0x03 + V)`, re-padded to `seedlen // 8` bytes. -/
def hashGenBody (digest : Bytes → Bytes) (st : HashState)
    (count : Nat) (data : Option Bytes) : Except Err (Bytes × HashState) :=
  let seedlen := hashSeedlen st.outlen
  let count_bits := 8 * count
  let V := hashAdditionalV digest seedlen st.V data
  let m := (count_bits + st.outlen - 1) / st.outlen
  let out := (hashgenLoop digest seedlen m V []).take count
  let H := digest (3 :: V)
  let V' := bytepad
    (long2bytes ((bytes2long V + bytes2long H + bytes2long st.C + st.reseed_counter) % 2 ^ seedlen))
    (seedlen / 8)
  .ok (out, { st with V := V' })

/-- `HashDRBG.generate`: the base-class protocol over `hashGenBody`. -/
def hashGenerate (digest : Bytes → Bytes) (st : HashState)
    (count : Nat) (data : Option Bytes) : Except Err (Bytes × HashState) :=
  drbgGenerate hashMaxRequestSize (hashGenBody digest)
    (fun s => s.reseed_counter) (fun s n => { s with reseed_counter := n })
    st count data

/-! ## HMAC_DRBG -/

/-- Internal state of `HMACDRBG`: `outlen` in bits, `Key`, `V` and the
inherited `reseed_counter`. -/
structure HMACState where
  outlen : Nat
  key : Bytes
  V : Bytes
  reseed_counter : Nat
  deriving DecidableEq

/-- `HMACDRBG.__update(K, V, *data)`: drop falsy parts (both `None` and
`b''`), then `K = mac(K, V + 0x00 + parts)`, `V = mac(K, V)`, and when any
part remained additionally `K = mac(K, V + 0x01 + parts)`, `V = mac(K, V)`.
`mac K value` models `hmac.new(K, value, digestmod).digest()`. -/
def hmacUpdate (mac : Bytes → Bytes → Bytes) (K V : Bytes)
    (parts : List (Option Bytes)) : Bytes × Bytes :=
  let ps := (parts.filterMap id).filter (fun p => !p.isEmpty)
  let K1 := mac K (V ++ 0 :: ps.flatten)
  let V1 := mac K1 V
  if ps.isEmpty then (K1, V1)
  else
    let K2 := mac K1 (V1 ++ 1 :: ps.flatten)
    let V2 := mac K2 V1
    (K2, V2)

/-- `HMACDRBG.__init__(name, entropy, nonce, data)`: strip a trailing
`hmac` from the name, digest lookup (`RuntimeError` when unknown),
`Key = 0x00 * (outlen // 8)`, `V = 0x01 * (outlen // 8)`, one `__update`
with `(entropy, nonce, data)`, `reseed_counter = 1`.  `digestSize` is the
byte size of the underlying digest. -/
def hmacInit (mac : Bytes → Bytes → Bytes) (digestSize : Nat) (name : String)
    (entropy nonce : Bytes) (data : Option Bytes) : Except Err HMACState :=
  -- strip the optional trailing "hmac" (`name[:-4]` when `name.endswith('hmac')`)
  let base :=
    if "hmac".data.isSuffixOf name.data then name.data.take (name.data.length - 4)
    else name.data
  if base ∈ DIGESTS then
    let outlenBytes := digestSize
    let (K, V) := hmacUpdate mac (List.replicate outlenBytes 0)
      (List.replicate outlenBytes 1) [some entropy, some nonce, data]
    .ok ⟨8 * outlenBytes, K, V, 1⟩
  else .error .unsupportedDigest

/-- The `while len(out) < count` loop of `HMACDRBG._generate`:
`V = mac(K, V)`, `out += V`.  Fuel-bounded; fuel `count` dominates the
Python loop whenever the MAC emits at least one byte. -/
def hmacGenLoop (mac : Bytes → Bytes → Bytes) (K : Bytes) (count : Nat) :
    Nat → Bytes → Bytes → Option (Bytes × Bytes)
  | 0, out, V => if out.length < count then none else some (out, V)
  | fuel + 1, out, V =>
    if out.length < count then
      let V' := mac K V
      hmacGenLoop mac K count fuel (out ++ V') V'
    else some (out, V)

/-- `HMACDRBG._generate(count, data)`: optional pre-update with the (truthy)
additional input, the generation loop, the final state-refresh `__update`
with the same additional input, truncation to `count` bytes. -/
def hmacGenBody (mac : Bytes → Bytes → Bytes) (st : HMACState)
    (count : Nat) (data : Option Bytes) : Except Err (Bytes × HMACState) :=
  let (K, V) :=
    if truthy data then hmacUpdate mac st.key st.V [data]
    else (st.key, st.V)
  match hmacGenLoop mac K count count [] V with
  | none => .error .outOfFuel
  | some (out, V') =>
    let (K'', V'') := hmacUpdate mac K V' [data]
    .ok (out.take count, { st with key := K'', V := V'' })

/-- `HMACDRBG.generate`: the base-class protocol over `hmacGenBody`. -/
def hmacGenerate (mac : Bytes → Bytes → Bytes) (st : HMACState)
    (count : Nat) (data : Option Bytes) : Except Err (Bytes × HMACState) :=
  drbgGenerate hashMaxRequestSize (hmacGenBody mac)
    (fun s => s.reseed_counter) (fun s n => { s with reseed_counter := n })
    st count data

/-- `HMACDRBG.reseed(entropy_input, additional_input)`: the override of the
base-class `reseed` (lines 504-506).  It performs a single `__update` and —
unlike `DRBG.reseed` — neither validates its inputs nor resets the reseed
counter.  It cannot fail. -/
def hmacReseed (mac : Bytes → Bytes → Bytes) (st : HMACState)
    (entropy : Bytes) (data : Option Bytes) : Except Err HMACState :=
  let (K, V) := hmacUpdate mac st.key st.V [some entropy, data]
  .ok { st with key := K, V := V }

/-! ## The auto-reseeding wrapper `RandomByteGenerator` -/

/-- `RandomByteGenerator._get_bytes(count)`: chunk the request at
`max_request_size`, call the wrapped generator's `generate` per chunk with
no additional input, catch exactly `ReseedRequired` by reseeding with the
next 32-byte draw of the system entropy source and retrying the same chunk;
every other error propagates.  `urandom k` is the `k`-th draw of
`os.urandom(32)`; `fuel` bounds the number of `while` iterations. -/
def getBytes {St : Type}
    (genFn : St → Nat → Option Bytes → Except Err (Bytes × St))
    (reseedFn : St → Bytes → Except Err St)
    (maxRequest : Nat) (urandom : Nat → Bytes) :
    Nat → St → Nat → Nat → Except Err (Bytes × St)
  | 0, st, count, _ => if count = 0 then .ok ([], st) else .error .outOfFuel
  | fuel + 1, st, count, k =>
    if count = 0 then .ok ([], st)
    else
      let c := if count > maxRequest then maxRequest else count
      match genFn st c none with
      | .error .reseedRequired =>
        match reseedFn st (urandom k) with
        | .error e => .error e
        | .ok st' => getBytes genFn reseedFn maxRequest urandom fuel st' count (k + 1)
      | .error e => .error e
      | .ok (b, st') =>
        match getBytes genFn reseedFn maxRequest urandom fuel st' (count - c) k with
        | .error e => .error e
        | .ok (rest, st'') => .ok (b ++ rest, st'')

/-! ## The `new` factory -/

/-- Outcome of `new(name, personalization_string)`.  The entropy and nonce
are fresh 128-byte draws from the system entropy source; they never affect
which of the three outcomes occurs, so the outcome abstracts them away. -/
inductive NewResult where
  /-- The function falls through and returns `None` (its `drbg` local was
  never assigned). -/
  | noGenerator
  /-- An `HMACDRBG` over the given digest is returned. -/
  | hmacGenerator (digest : String)
  /-- `ValueError('Unsupported digest ...')` is raised. -/
  | unsupportedDigestErr
  deriving DecidableEq

/-- `re.match('(sha[0-9]{1,3})(hmac)?', name)`: an anchored-prefix match of
`sha` followed by one to three digits (greedy), then an optional literal
`hmac`; trailing characters are ignored (`re.match` only anchors the start).
Returns the text of group 1 and whether group 2 matched. -/
def parseAlgName (s : List Char) : Option (List Char × Bool) :=
  match s with
  | 's' :: 'h' :: 'a' :: rest =>
    let digits := (rest.takeWhile Char.isDigit).take 3
    if digits.isEmpty then none
    else
      let rest' := rest.drop digits.length
      some ('s' :: 'h' :: 'a' :: digits, decide (rest'.take 4 = "hmac".data))
  | _ => none

/-- `new(name, personalization_string)` (lines 514-531): regex match on the
lowered name; unmatched names fall through to `return None`; a matched but
unsupported digest raises `ValueError`; only a matched name whose `hmac`
group matched constructs a generator (an `HMACDRBG`) — a matched plain
digest name also falls through to `return None`.  The `UnknownAlgorithm`
exception class is never raised anywhere in the source. -/
def newFactory (name : String) : NewResult :=
  match parseAlgName (strLower name.data) with
  | none => .noGenerator
  | some (dg, useHmac) =>
    if dg ∈ DIGESTS then
      if useHmac then .hmacGenerator (String.mk dg) else .noGenerator
    else .unsupportedDigestErr

/-! ## Running call sequences (for the determinism claim) -/

/-- Run a sequence of `generate` calls (count, additional input) against a
generator, collecting each call's outcome; a failed call leaves the state
unchanged, as in Python. -/
def runCalls {St : Type}
    (genFn : St → Nat → Option Bytes → Except Err (Bytes × St)) :
    St → List (Nat × Option Bytes) → List (Except Err Bytes)
  | _, [] => []
  | st, (c, d) :: rest =>
    match genFn st c d with
    | .error e => .error e :: runCalls genFn st rest
    | .ok (out, st') => .ok out :: runCalls genFn st' rest

/-! ## Spec-side formulations of the hash derivation function (claim C7) -/

/-- Modelled from the spec's words for `df` (claim C7): the concatenation,
for counter `i` in `1..n` with `n = ceil(output_bitlen / outlen)`, of
`digest(byte(i mod 255) ++ left_pad(encode(output_bitlen), 4) ++ input)`,
truncated to `ceil(output_bitlen / 8)` bytes. -/
def hashDFSpec (digest : Bytes → Bytes) (outlen : Nat)
    (input : Bytes) (output_bitlen : Nat) : Bytes :=
  let n := (output_bitlen + outlen - 1) / outlen
  (((List.range' 1 n).map
    (fun i => digest ((i % 255) :: (bytepad (long2bytes output_bitlen) 4 ++ input)))).flatten).take
    ((output_bitlen + 7) / 8)

/-- The spec's `df` formula with the truncation length corrected to the
source's `(output_bitlen + 4) // 8` bytes. -/
def hashDFAmended (digest : Bytes → Bytes) (outlen : Nat)
    (input : Bytes) (output_bitlen : Nat) : Bytes :=
  let n := (output_bitlen + outlen - 1) / outlen
  (((List.range' 1 n).map
    (fun i => digest ((i % 255) :: (bytepad (long2bytes output_bitlen) 4 ++ input)))).flatten).take
    ((output_bitlen + 4) / 8)

/-! ## Helper lemmas about the loops and the shared protocol -/

lemma ctrGenLoop_length (encrypt : Bytes → Bytes → Bytes) (key : Bytes) (count : Nat) :
    ∀ fuel temp V t v, ctrGenLoop encrypt key count fuel temp V = some (t, v) →
      count ≤ t.length := by
  intro fuel
  induction fuel with
  | zero =>
    intro temp V t v h
    rw [ctrGenLoop] at h
    split at h
    · exact absurd h (by simp)
    · rename_i hlen
      obtain ⟨rfl, rfl⟩ : temp = t ∧ V = v := by simpa using h
      omega
  | succ n ih =>
    intro temp V t v h
    rw [ctrGenLoop] at h
    split at h
    · exact ih _ _ _ _ h
    · rename_i hlen
      obtain ⟨rfl, rfl⟩ : temp = t ∧ V = v := by simpa using h
      omega

lemma hmacGenLoop_length (mac : Bytes → Bytes → Bytes) (K : Bytes) (count : Nat) :
    ∀ fuel out V t v, hmacGenLoop mac K count fuel out V = some (t, v) →
      count ≤ t.length := by
  intro fuel
  induction fuel with
  | zero =>
    intro out V t v h
    rw [hmacGenLoop] at h
    split at h
    · exact absurd h (by simp)
    · rename_i hlen
      obtain ⟨rfl, rfl⟩ : out = t ∧ V = v := by simpa using h
      omega
  | succ n ih =>
    intro out V t v h
    rw [hmacGenLoop] at h
    split at h
    · exact ih _ _ _ _ h
    · rename_i hlen
      obtain ⟨rfl, rfl⟩ : out = t ∧ V = v := by simpa using h
      omega

lemma hashgenLoop_length (digest : Bytes → Bytes) (L seedlen : Nat)
    (hd : ∀ b, (digest b).length = L) :
    ∀ m dataV w, (hashgenLoop digest seedlen m dataV w).length = w.length + m * L := by
  intro m
  induction m with
  | zero => intro dataV w; rw [hashgenLoop]; simp
  | succ n ih =>
    intro dataV w
    rw [hashgenLoop, ih]
    simp [hd]
    ring

lemma le_ceil_div_mul (a b : Nat) (hb : 0 < b) : a ≤ ((a + b - 1) / b) * b := by
  rcases Nat.eq_zero_or_pos a with rfl | ha
  · simp
  · have hrw : a + b - 1 = (a - 1) + b := by omega
    rw [hrw, Nat.add_div_right _ hb]
    have h2 : a - 1 < ((a - 1) / b + 1) * b :=
      (Nat.div_lt_iff_lt_mul hb).mp (Nat.lt_succ_self _)
    omega

lemma count_le_ceil_blocks (count L : Nat) (hL : 0 < L) :
    count ≤ ((8 * count + 8 * L - 1) / (8 * L)) * L := by
  have h := le_ceil_div_mul (8 * count) (8 * L) (by omega)
  have h2 : ((8 * count + 8 * L - 1) / (8 * L)) * (8 * L)
      = 8 * (((8 * count + 8 * L - 1) / (8 * L)) * L) := by ring
  rw [h2] at h
  exact Nat.le_of_mul_le_mul_left h (by omega)

lemma ctrUpdateLoop_some (encrypt : Bytes → Bytes → Bytes) (key : Bytes)
    (seedlen B : Nat) (hB : ∀ k b, (encrypt k b).length = B) :
    ∀ fuel temp V, seedlen ≤ temp.length + fuel * B →
      ∃ t v, ctrUpdateLoop encrypt key seedlen fuel temp V = some (t, v) := by
  intro fuel
  induction fuel with
  | zero =>
    intro temp V h
    rw [ctrUpdateLoop]
    rw [if_neg (by omega)]
    exact ⟨temp, V, rfl⟩
  | succ n ih =>
    intro temp V h
    rw [ctrUpdateLoop]
    have hmul : (n + 1) * B = n * B + B := by ring
    split
    · apply ih
      simp only [List.length_append, hB]
      omega
    · exact ⟨temp, V, rfl⟩

/-- `CTRDRBG.__update` can only fail by fuel exhaustion. -/
lemma ctrUpdate_error (encrypt : Bytes → Bytes → Bytes) (keylen : Nat)
    (provided key V : Bytes) (e : Err)
    (h : ctrUpdate encrypt keylen provided key V = .error e) : e = .outOfFuel := by
  rcases hl : ctrUpdateLoop encrypt key (ctrSeedlen keylen) (ctrSeedlen keylen) [] V
    with _ | ⟨t, v⟩ <;> simp only [ctrUpdate, hl] at h
  · exact (Except.error.inj h).symm
  · exact absurd h (by simp)

/-- `CTRDRBG.__update` succeeds whenever the cipher emits 16-byte blocks. -/
lemma ctrUpdate_ok (encrypt : Bytes → Bytes → Bytes) (keylen : Nat)
    (provided key V : Bytes) (hB : ∀ k b, (encrypt k b).length = 16)
    (hs : 0 < ctrSeedlen keylen) :
    ∃ p, ctrUpdate encrypt keylen provided key V = .ok p := by
  obtain ⟨t, v, hl⟩ := ctrUpdateLoop_some encrypt key (ctrSeedlen keylen) 16 hB
    (ctrSeedlen keylen) [] V (by simp; omega)
  cases hu : ctrUpdate encrypt keylen provided key V with
  | ok p => exact ⟨p, rfl⟩
  | error e =>
    exfalso
    simp only [ctrUpdate, hl] at hu
    exact absurd hu (by simp)

/-- `CTRDRBG._generate` never signals `ReseedRequired` itself. -/
lemma ctrGenBody_ne_reseedRequired (encrypt : Bytes → Bytes → Bytes)
    (st : CTRState) (count : Nat) (data : Option Bytes) :
    ctrGenBody encrypt st count data ≠ .error .reseedRequired := by
  intro h
  simp only [ctrGenBody] at h
  split at h
  · simp at h
  · split at h
    · rename_i e heq
      simp only [Except.error.injEq] at h
      subst h
      split at heq
      · exact absurd (ctrUpdate_error _ _ _ _ _ _ heq) (by simp)
      · exact absurd heq (by simp)
    · split at h
      · simp at h
      · split at h
        · rename_i e heq
          simp only [Except.error.injEq] at h
          subst h
          exact absurd (ctrUpdate_error _ _ _ _ _ _ heq) (by simp)
        · simp at h

/-- `HMACDRBG._generate` never signals `ReseedRequired` itself. -/
lemma hmacGenBody_ne_reseedRequired (mac : Bytes → Bytes → Bytes)
    (st : HMACState) (count : Nat) (data : Option Bytes) :
    hmacGenBody mac st count data ≠ .error .reseedRequired := by
  intro h
  simp only [hmacGenBody] at h
  split at h
  · simp at h
  · simp at h

/-- `HashDRBG._generate` always succeeds. -/
lemma hashGenBody_ok (digest : Bytes → Bytes) (st : HashState)
    (count : Nat) (data : Option Bytes) :
    ∃ p, hashGenBody digest st count data = .ok p := ⟨_, rfl⟩

/-- The base-class `generate` signals `ReseedRequired` exactly when all the
preceding checks pass and the stored counter strictly exceeds the
interval — provided the family body never produces that signal itself. -/
lemma drbgGenerate_reseedRequired_iff {St : Type} (maxReq : Nat)
    (body : St → Nat → Option Bytes → Except Err (Bytes × St))
    (getC : St → Nat) (setC : St → Nat → St) (st : St) (count : Nat)
    (data : Option Bytes)
    (hbody : body st count data ≠ .error .reseedRequired) :
    drbgGenerate maxReq body getC setC st count data = .error .reseedRequired ↔
      (0 < count ∧ count < maxReq) ∧ oversized data = false ∧
        getC st > RESEED_INTERVAL := by
  unfold drbgGenerate
  split
  · rename_i hc
    split
    · rename_i ho
      simp [hc, ho]
    · rename_i ho
      split
      · rename_i hr
        simp only [Bool.not_eq_true] at ho
        simp [hc, hr, ho]
      · rename_i hr
        cases hb : body st count data with
        | error e =>
          simp only [hb]
          constructor
          · intro he
            exact absurd (hb.trans (by simpa using he)) hbody
          · intro hrhs
            exact absurd hrhs.2.2 hr
        | ok p =>
          obtain ⟨o, s⟩ := p
          simp only [hb]
          constructor
          · intro he; exact absurd he (by simp)
          · intro hrhs; exact absurd hrhs.2.2 hr
  · rename_i hc
    constructor
    · intro he; simp at he
    · intro hrhs; exact absurd hrhs.1 hc

/-- The base-class `generate` returns a payload only produced by the family
body, and only after the count check passed. -/
lemma drbgGenerate_ok {St : Type} (maxReq : Nat)
    (body : St → Nat → Option Bytes → Except Err (Bytes × St))
    (getC : St → Nat) (setC : St → Nat → St) (st : St) (count : Nat)
    (data : Option Bytes) (out : Bytes) (st' : St)
    (h : drbgGenerate maxReq body getC setC st count data = .ok (out, st')) :
    (0 < count ∧ count < maxReq) ∧ ∃ s1, body st count data = .ok (out, s1) := by
  unfold drbgGenerate at h
  split at h
  · rename_i hc
    split at h
    · exact absurd h (by simp)
    · split at h
      · exact absurd h (by simp)
      · split at h
        · exact absurd h (by simp)
        · rename_i o s1 heq
          refine ⟨hc, s1, ?_⟩
          rw [heq]
          obtain ⟨rfl, rfl⟩ : o = out ∧ setC s1 (getC st + 1) = st' := by simpa using h
          rfl
  · exact absurd h (by simp)

/-- On success, `CTRDRBG._generate` returns exactly `count` bytes. -/
lemma ctrGenBody_ok_length (encrypt : Bytes → Bytes → Bytes) (st : CTRState)
    (count : Nat) (data : Option Bytes) (out : Bytes) (st' : CTRState)
    (h : ctrGenBody encrypt st count data = .ok (out, st')) : out.length = count := by
  simp only [ctrGenBody] at h
  split at h
  · simp at h
  · split at h
    · simp at h
    · split at h
      · simp at h
      · rename_i temp V' heq
        split at h
        · simp at h
        · have hlen := ctrGenLoop_length _ _ _ _ _ _ _ _ heq
          have h1 : List.take count temp = out := by
            simpa using And.left (by simpa using h)
          rw [← h1, List.length_take]
          omega

/-- On success, `HMACDRBG._generate` returns exactly `count` bytes. -/
lemma hmacGenBody_ok_length (mac : Bytes → Bytes → Bytes) (st : HMACState)
    (count : Nat) (data : Option Bytes) (out : Bytes) (st' : HMACState)
    (h : hmacGenBody mac st count data = .ok (out, st')) : out.length = count := by
  simp only [hmacGenBody] at h
  split at h
  · simp at h
  · rename_i o V' heq
    have hlen := hmacGenLoop_length _ _ _ _ _ _ _ _ heq
    have h1 : List.take count o = out := by
      simpa using And.left (by simpa using h)
    rw [← h1, List.length_take]
    omega

/-- `HashDRBG._generate` returns exactly `count` bytes whenever the digest
has a fixed positive block size matching the state's `outlen`. -/
lemma hashGenBody_ok_length (digest : Bytes → Bytes) (L : Nat) (st : HashState)
    (count : Nat) (data : Option Bytes) (out : Bytes) (st' : HashState)
    (hd : ∀ b, (digest b).length = L) (hL : 0 < L) (ho : st.outlen = 8 * L)
    (h : hashGenBody digest st count data = .ok (out, st')) : out.length = count := by
  simp only [hashGenBody] at h
  have h1 : (hashgenLoop digest (hashSeedlen st.outlen)
      ((8 * count + st.outlen - 1) / st.outlen)
      (hashAdditionalV digest (hashSeedlen st.outlen) st.V data) []).take count = out := by
    simpa using And.left (by simpa using h)
  rw [← h1, List.length_take,
    hashgenLoop_length digest L (hashSeedlen st.outlen) hd]
  have := count_le_ceil_blocks count L hL
  rw [ho]
  simp only [List.length_nil, Nat.zero_add]
  omega

/-! ## Concrete stand-in primitives for closed evaluations -/

/-- A stand-in 256-bit digest with constant all-zero output. -/
def cDig0 : Bytes → Bytes := fun _ => List.replicate 32 0

/-- A stand-in 256-bit digest with constant all-one output. -/
def cDig1 : Bytes → Bytes := fun _ => List.replicate 32 1

/-- A stand-in HMAC primitive with constant all-zero output. -/
def cMac0 : Bytes → Bytes → Bytes := fun _ _ => List.replicate 32 0

/-- A stand-in 128-bit block cipher with constant all-zero output. -/
def cEnc0 : Bytes → Bytes → Bytes := fun _ _ => List.replicate 16 0

/-- A stand-in system entropy source: every 32-byte draw is all zeros. -/
def cUr0 : Nat → Bytes := fun _ => List.replicate 32 0

/-! ## Claim C1 -/

/-- C1: the claim states that after any successful
`reseed(entropy, additional_input)` the reseed counter equals exactly 1, for
all three families.  `CTRDRBG` and `HashDRBG` go through the base-class
`reseed`, which does reset the counter; but `HMACDRBG` overrides `reseed`
(lines 504-506) with a method that never touches `reseed_counter`: this
theorem shows the HMAC reseed always succeeds and returns the counter it
started with, so a reseed from any counter value other than 1 violates the
claim. -/
theorem hmacReseed_preserves_counter (mac : Bytes → Bytes → Bytes)
    (st : HMACState) (entropy : Bytes) (data : Option Bytes) :
    (hmacReseed mac st entropy data).map (fun s => s.reseed_counter)
      = .ok st.reseed_counter := by
  rcases hu : hmacUpdate mac st.key st.V [some entropy, data] with ⟨K, V⟩
  simp [hmacReseed, hu, Except.map]

/-! ## Claim C2 -/

/-- C2: the factory diverges from the claim at every branch: a recognized
plain digest name (`sha256`) returns `None` instead of a generator; a
recognized cipher name (`aes128`) returns `None` instead of a generator;
an unrecognized name returns `None` instead of raising `UnknownAlgorithm`;
a `sha`-pattern name with an unsupported digest raises `ValueError`, not
`UnknownAlgorithm`; only a digest name suffixed with `hmac` yields a
generator. -/
theorem newFactory_outcomes :
    newFactory "sha256" = NewResult.noGenerator ∧
    newFactory "aes128" = NewResult.noGenerator ∧
    newFactory "not-an-algorithm" = NewResult.noGenerator ∧
    newFactory "sha999" = NewResult.unsupportedDigestErr ∧
    newFactory "sha256hmac" = NewResult.hmacGenerator "sha256" := by
  refine ⟨?_, ?_, ?_, ?_, ?_⟩ <;> rfl

/-! ## Claim C4 -/

/-- C4 counterexample: with `RESEED_INTERVAL = 2`, a generator whose
reseed counter has just reached the interval (counter = 2, i.e. one
successful generate after construction) does **not** raise
`ReseedRequired` on its next generate call — that call succeeds and bumps
the counter to 3 — and only the call after that (counter = 3 > interval)
raises.  This refutes the claim's "raises exactly when the counter has, by
the start of that call, just reached the interval". -/
theorem hmacGenerate_at_interval_succeeds :
    RESEED_INTERVAL = 2 ∧
    hmacGenerate cMac0 ⟨256, List.replicate 32 0, List.replicate 32 1, 2⟩ 16 none
      = .ok (List.replicate 16 0, ⟨256, List.replicate 32 0, List.replicate 32 0, 3⟩) ∧
    hmacGenerate cMac0 ⟨256, List.replicate 32 0, List.replicate 32 0, 3⟩ 16 none
      = .error .reseedRequired := ⟨rfl, by decide, by decide⟩

/-- C4 (amended): for all three families, `generate` raises
`ReseedRequired` exactly when the count and additional-input checks pass
and the reseed counter at the start of the call **strictly exceeds** the
reseed interval; equivalently, with the counter starting at 1 and
incremented by every successful generate, the first `RESEED_INTERVAL`
generate calls succeed (as far as this check is concerned) and the
`(RESEED_INTERVAL + 1)`-th raises. -/
theorem generate_reseedRequired_characterization :
    (∀ (encrypt : Bytes → Bytes → Bytes) (st : CTRState) (count : Nat)
        (data : Option Bytes),
      ctrGenerate encrypt st count data = .error .reseedRequired ↔
        (0 < count ∧ count < ctrMaxRequestSize) ∧ oversized data = false ∧
          st.reseed_counter > RESEED_INTERVAL) ∧
    (∀ (digest : Bytes → Bytes) (st : HashState) (count : Nat)
        (data : Option Bytes),
      hashGenerate digest st count data = .error .reseedRequired ↔
        (0 < count ∧ count < hashMaxRequestSize) ∧ oversized data = false ∧
          st.reseed_counter > RESEED_INTERVAL) ∧
    (∀ (mac : Bytes → Bytes → Bytes) (st : HMACState) (count : Nat)
        (data : Option Bytes),
      hmacGenerate mac st count data = .error .reseedRequired ↔
        (0 < count ∧ count < hashMaxRequestSize) ∧ oversized data = false ∧
          st.reseed_counter > RESEED_INTERVAL) := by
  refine ⟨?_, ?_, ?_⟩
  · intro encrypt st count data
    exact drbgGenerate_reseedRequired_iff _ _ _ _ _ _ _
      (ctrGenBody_ne_reseedRequired _ _ _ _)
  · intro digest st count data
    apply drbgGenerate_reseedRequired_iff
    obtain ⟨p, hp⟩ := hashGenBody_ok digest st count data
    simp [hp]
  · intro mac st count data
    exact drbgGenerate_reseedRequired_iff _ _ _ _ _ _ _
      (hmacGenBody_ne_reseedRequired _ _ _ _)

/-! ## Claim C5 -/

/-- C5: the wrapper's chunking is self-defeating for large requests.  For a
request of `count ≥ max_request_size` bytes the wrapper submits a chunk of
exactly `max_request_size` bytes, but the generator's own `generate`
requires `count < max_request_size` strictly, so it raises
`ValueError('Count out of range.')`, which the wrapper does not catch (it
catches only `ReseedRequired`): the call fails instead of returning `count`
bytes.  Shown here for an HMAC generator with a fresh counter and the
request `count = max_request_size = 2^16`. -/
theorem wrapper_full_chunk_out_of_range :
    hashMaxRequestSize = 2 ^ 16 ∧
    getBytes (hmacGenerate cMac0) (fun st e => hmacReseed cMac0 st e none)
      hashMaxRequestSize cUr0 5
      ⟨256, List.replicate 32 0, List.replicate 32 1, 1⟩ (2 ^ 16) 0
      = .error .countOutOfRange := ⟨rfl, by decide⟩

/-! ## Claim C7 -/

/-- C7 counterexample: at `output_bitlen = 1` (with a 256-bit digest) the
source's `df` truncates to `(1 + 4) // 8 = 0` bytes while the claim's
formula truncates to `ceil(1/8) = 1` byte, so the two differ. -/
theorem hashDF_truncation_counterexample :
    hashDF cDig1 256 [] 1 = [] ∧
    hashDFSpec cDig1 256 [] 1 = [1] ∧
    hashDF cDig1 256 [] 1 ≠ hashDFSpec cDig1 256 [] 1 := by
  refine ⟨rfl, rfl, by decide⟩

lemma foldl_append_map (f : Nat → Bytes) (l : List Nat) (acc : Bytes) :
    l.foldl (fun a i => a ++ f i) acc = acc ++ (l.map f).flatten := by
  induction l generalizing acc with
  | nil => simp
  | cons x xs ih => simp [ih]

/-- C7 (amended): `df(input, output_bitlen)` equals the concatenation, for
counter `i` from 1 to `n = ceil(output_bitlen / outlen)`, of
`digest(byte(i mod 255) ++ left_pad(encode(output_bitlen), 4) ++ input)`,
truncated to `(output_bitlen + 4) div 8` bytes (the claim's
`ceil(output_bitlen / 8)` is correct only when `output_bitlen mod 8` is 0
or at least 4 — in particular for the `seedlen` values 440 and 888 the
generator actually passes). -/
theorem hashDF_eq_spec_formula (digest : Bytes → Bytes) (outlen : Nat)
    (input : Bytes) (output_bitlen : Nat) :
    hashDF digest outlen input output_bitlen
      = hashDFAmended digest outlen input output_bitlen := by
  simp only [hashDF, hashDFAmended]
  rw [foldl_append_map]
  simp only [List.nil_append]
  congr 1
  rw [List.range'_eq_map_range, List.map_map]
  congr 1
  apply List.map_congr_left
  intro i _
  simp [Function.comp, Nat.add_comm]

/-! ## Claim C3 -/

/-- C3 counterexample: an additional input of `2^21 + 1` bytes (longer than
the maximum entropy length) passed to `HashDRBG.reseed` does **not** fail:
no length check exists on the reseed path, so the call succeeds and updates
`V` and `C` — the state is not left unchanged.  (Here with the constant
all-one stand-in digest: the state's all-zero `V`/`C` become all-one.) -/
theorem hashReseed_oversized_accepted :
    (List.replicate (2 ^ 21 + 1) (0 : Nat)).length > MAX_ENTROPY_LENGTH ∧
    hashReseed cDig1 ⟨256, List.replicate 55 0, List.replicate 55 0, 1⟩
      (List.replicate 55 2) (some (List.replicate (2 ^ 21 + 1) 0))
      = .ok ⟨256, List.replicate 55 1, List.replicate 55 1, 1⟩ := by
  constructor
  · rw [List.length_replicate, MAX_ENTROPY_LENGTH]
    norm_num
  · rfl

/-- C3 (amended): additional input longer than the maximum entropy length
(`2^21` bytes) makes `generate` fail with `ValueError('Too much data.')`
before any state change, for all three families; `reseed`, however,
performs no such check — `HashDRBG.reseed` (and `HMACDRBG.reseed`) accept
oversized additional input and update the state. -/
theorem generate_oversized_additional_input_rejected (data : Bytes)
    (h : data.length > MAX_ENTROPY_LENGTH) :
    (∀ (encrypt : Bytes → Bytes → Bytes) (st : CTRState) (count : Nat),
      0 < count → count < ctrMaxRequestSize →
      ctrGenerate encrypt st count (some data) = .error .tooMuchData) ∧
    (∀ (digest : Bytes → Bytes) (st : HashState) (count : Nat),
      0 < count → count < hashMaxRequestSize →
      hashGenerate digest st count (some data) = .error .tooMuchData) ∧
    (∀ (mac : Bytes → Bytes → Bytes) (st : HMACState) (count : Nat),
      0 < count → count < hashMaxRequestSize →
      hmacGenerate mac st count (some data) = .error .tooMuchData) := by
  have hov : oversized (some data) = true := by
    simp only [oversized, decide_eq_true_eq]
    exact h
  refine ⟨?_, ?_, ?_⟩ <;> intro f st count h1 h2 <;>
    simp [ctrGenerate, hashGenerate, hmacGenerate, drbgGenerate, hov, h1, h2]

theorem generate_oversized_additional_input_rejected_witness :
    (List.replicate (2 ^ 21 + 1) (0 : Nat)).length > MAX_ENTROPY_LENGTH ∧
    hashGenerate cDig1 ⟨256, List.replicate 55 0, List.replicate 55 0, 1⟩ 16
      (some (List.replicate (2 ^ 21 + 1) 0)) = .error .tooMuchData := by
  have h : (List.replicate (2 ^ 21 + 1) (0 : Nat)).length > MAX_ENTROPY_LENGTH := by
    rw [List.length_replicate, MAX_ENTROPY_LENGTH]
    norm_num
  exact ⟨h, (generate_oversized_additional_input_rejected _ h).2.1 cDig1 _ 16
    (by norm_num) (by norm_num [hashMaxRequestSize])⟩

/-! ## Claim C6 -/

/-- C6: for all three families a successful `generate(count)` returns
exactly `count` bytes (for the hash family under the assumption that the
digest has a fixed positive size matching the state's `outlen`, which holds
for every real digest), and both `generate(0)` and
`generate(max_request_size)` fail with the count-out-of-range
`ValueError`. -/
theorem generate_returns_exact_count :
    (∀ (encrypt : Bytes → Bytes → Bytes) (st : CTRState) (count : Nat)
        (data : Option Bytes) (out : Bytes) (st' : CTRState),
      ctrGenerate encrypt st count data = .ok (out, st') → out.length = count) ∧
    (∀ (mac : Bytes → Bytes → Bytes) (st : HMACState) (count : Nat)
        (data : Option Bytes) (out : Bytes) (st' : HMACState),
      hmacGenerate mac st count data = .ok (out, st') → out.length = count) ∧
    (∀ (digest : Bytes → Bytes) (L : Nat) (st : HashState) (count : Nat)
        (data : Option Bytes) (out : Bytes) (st' : HashState),
      (∀ b, (digest b).length = L) → 0 < L → st.outlen = 8 * L →
      hashGenerate digest st count data = .ok (out, st') → out.length = count) ∧
    (∀ (encrypt : Bytes → Bytes → Bytes) (st : CTRState) (data : Option Bytes),
      ctrGenerate encrypt st 0 data = .error .countOutOfRange ∧
      ctrGenerate encrypt st ctrMaxRequestSize data = .error .countOutOfRange) ∧
    (∀ (digest : Bytes → Bytes) (st : HashState) (data : Option Bytes),
      hashGenerate digest st 0 data = .error .countOutOfRange ∧
      hashGenerate digest st hashMaxRequestSize data = .error .countOutOfRange) ∧
    (∀ (mac : Bytes → Bytes → Bytes) (st : HMACState) (data : Option Bytes),
      hmacGenerate mac st 0 data = .error .countOutOfRange ∧
      hmacGenerate mac st hashMaxRequestSize data = .error .countOutOfRange) := by
  refine ⟨?_, ?_, ?_, ?_, ?_, ?_⟩
  · intro encrypt st count data out st' h
    obtain ⟨-, s1, hb⟩ := drbgGenerate_ok _ _ _ _ _ _ _ _ _ h
    exact ctrGenBody_ok_length _ _ _ _ _ _ hb
  · intro mac st count data out st' h
    obtain ⟨-, s1, hb⟩ := drbgGenerate_ok _ _ _ _ _ _ _ _ _ h
    exact hmacGenBody_ok_length _ _ _ _ _ _ hb
  · intro digest L st count data out st' hd hL ho h
    obtain ⟨-, s1, hb⟩ := drbgGenerate_ok _ _ _ _ _ _ _ _ _ h
    exact hashGenBody_ok_length _ _ _ _ _ _ _ hd hL ho hb
  · intro encrypt st data
    exact ⟨by simp [ctrGenerate, drbgGenerate], by simp [ctrGenerate, drbgGenerate]⟩
  · intro digest st data
    exact ⟨by simp [hashGenerate, drbgGenerate], by simp [hashGenerate, drbgGenerate]⟩
  · intro mac st data
    exact ⟨by simp [hmacGenerate, drbgGenerate], by simp [hmacGenerate, drbgGenerate]⟩

set_option exponentiation.threshold 600 in
theorem generate_returns_exact_count_witness :
    (∀ b, (cDig0 b).length = 32) ∧ (0 : Nat) < 32 ∧
    (⟨256, List.replicate 55 0, List.replicate 55 0, 1⟩ : HashState).outlen = 8 * 32 ∧
    (List.replicate 16 (0 : Nat)).length = 16 :=
  ⟨fun b => by simp [cDig0], by decide, by decide,
    generate_returns_exact_count.2.2.1 cDig0 32
      ⟨256, List.replicate 55 0, List.replicate 55 0, 1⟩ 16 none
      (List.replicate 16 0) ⟨256, List.replicate 54 0 ++ [1], List.replicate 55 0, 2⟩
      (fun b => by simp [cDig0]) (by decide) rfl rfl⟩

/-! ## Claim C8 -/

/-- C8: constructing a generator twice from identical inputs (same cipher or
digest primitive, same name, entropy, nonce and personalization) and
feeding both the same sequence of generate calls (same counts and
additional inputs) yields byte-identical outcome sequences, for all three
families: nothing in construction or generation consults any source other
than its arguments. -/
theorem construction_and_generation_deterministic :
    (∀ (encrypt : Bytes → Bytes → Bytes) (name : String) (entropy : Bytes)
        (data : Option Bytes) (st1 st2 : CTRState)
        (calls : List (Nat × Option Bytes)),
      ctrInit encrypt name entropy data = .ok st1 →
      ctrInit encrypt name entropy data = .ok st2 →
      runCalls (ctrGenerate encrypt) st1 calls
        = runCalls (ctrGenerate encrypt) st2 calls) ∧
    (∀ (digest : Bytes → Bytes) (name : String) (entropy nonce : Bytes)
        (data : Option Bytes) (st1 st2 : HashState)
        (calls : List (Nat × Option Bytes)),
      hashInit digest name entropy nonce data = .ok st1 →
      hashInit digest name entropy nonce data = .ok st2 →
      runCalls (hashGenerate digest) st1 calls
        = runCalls (hashGenerate digest) st2 calls) ∧
    (∀ (mac : Bytes → Bytes → Bytes) (digestSize : Nat) (name : String)
        (entropy nonce : Bytes) (data : Option Bytes) (st1 st2 : HMACState)
        (calls : List (Nat × Option Bytes)),
      hmacInit mac digestSize name entropy nonce data = .ok st1 →
      hmacInit mac digestSize name entropy nonce data = .ok st2 →
      runCalls (hmacGenerate mac) st1 calls
        = runCalls (hmacGenerate mac) st2 calls) := by
  refine ⟨?_, ?_, ?_⟩
  · intro encrypt name entropy data st1 st2 calls h1 h2
    injection h1.symm.trans h2 with h
    rw [h]
  · intro digest name entropy nonce data st1 st2 calls h1 h2
    injection h1.symm.trans h2 with h
    rw [h]
  · intro mac digestSize name entropy nonce data st1 st2 calls h1 h2
    injection h1.symm.trans h2 with h
    rw [h]

theorem construction_and_generation_deterministic_witness :
    ctrInit cEnc0 "aes128" (List.replicate 32 0) none
      = .ok ⟨128, List.replicate 16 0, List.replicate 16 0, 1⟩ ∧
    runCalls (ctrGenerate cEnc0)
        ⟨128, List.replicate 16 0, List.replicate 16 0, 1⟩ [(5, none)]
      = runCalls (ctrGenerate cEnc0)
        ⟨128, List.replicate 16 0, List.replicate 16 0, 1⟩ [(5, none)] := by
  have h : ctrInit cEnc0 "aes128" (List.replicate 32 0) none
      = .ok ⟨128, List.replicate 16 0, List.replicate 16 0, 1⟩ := by decide
  exact ⟨h, construction_and_generation_deterministic.1 cEnc0 "aes128"
    (List.replicate 32 0) none _ _ [(5, none)] h h⟩

/-! ## Claim C9 -/

/-- C9: `HashDRBG._generate` treats `b''` as present additional input (the
test is `data is not None`): with `data = b''` the value fed to `hashgen`
is `(V + digest(0x02 ++ V ++ b'')) mod 2^seedlen`, re-padded, while with
`data = None` it is `V` itself; these differ whenever the digest of
`0x02 ++ V` is not `0 mod 2^seedlen` (for `bytes2long V < 2^seedlen`, as
the stored fixed-width `V` always satisfies).  `HMACDRBG._generate`, by
contrast, tests Python truthiness (`if data:`), so `b''` behaves exactly
like `None` there. -/
theorem empty_additional_input_asymmetry :
    (∀ (digest : Bytes → Bytes) (seedlen : Nat) (V : Bytes),
      hashAdditionalV digest seedlen V (some [])
        = bytepad (long2bytes
            ((bytes2long V + bytes2long (digest (2 :: V))) % 2 ^ seedlen))
            (seedlen / 8) ∧
      hashAdditionalV digest seedlen V none = V) ∧
    (∀ (digest : Bytes → Bytes) (seedlen : Nat) (V : Bytes),
      bytes2long (digest (2 :: V)) % 2 ^ seedlen ≠ 0 →
      bytes2long V < 2 ^ seedlen →
      hashAdditionalV digest seedlen V (some []) ≠ V) ∧
    (∀ (mac : Bytes → Bytes → Bytes) (st : HMACState) (count : Nat),
      hmacGenerate mac st count (some []) = hmacGenerate mac st count none) := by
  refine ⟨?_, ?_, ?_⟩
  · intro digest seedlen V
    exact ⟨by simp [hashAdditionalV], rfl⟩
  · intro digest seedlen V hw hv heq
    have h1 : bytes2long (hashAdditionalV digest seedlen V (some []))
        = (bytes2long V + bytes2long (digest (2 :: V))) % 2 ^ seedlen := by
      simp [hashAdditionalV, bytes2long_bytepad, bytes2long_long2bytes]
    rw [heq] at h1
    set v := bytes2long V with hvdef
    set w := bytes2long (digest (2 :: V)) with hwdef
    set M := 2 ^ seedlen with hMdef
    have hM : 0 < M := Nat.pos_pow_of_pos _ (by norm_num)
    have hw' : w % M < M := Nat.mod_lt _ hM
    have h2 : (v + w % M) % M = v := by
      rw [Nat.add_mod, Nat.mod_eq_of_lt hv] at h1
      exact h1.symm
    rcases Nat.lt_or_ge (v + w % M) M with hlt | hge
    · rw [Nat.mod_eq_of_lt hlt] at h2
      omega
    · rw [Nat.mod_eq_sub_mod hge, Nat.mod_eq_of_lt (by omega)] at h2
      omega
  · intro mac st count
    rfl

theorem empty_additional_input_asymmetry_witness :
    bytes2long (cDig1 (2 :: List.replicate 55 0)) % 2 ^ 440 ≠ 0 ∧
    bytes2long (List.replicate 55 0) < 2 ^ 440 ∧
    hashAdditionalV cDig1 440 (List.replicate 55 0) (some [])
      ≠ List.replicate 55 0 :=
  ⟨by decide, by decide,
    empty_additional_input_asymmetry.2.1 cDig1 440 (List.replicate 55 0)
      (by decide) (by decide)⟩

/-! ## Claim C10 -/

/-- C10: once a wrapped CTR generator signals `ReseedRequired`, the
wrapper reseeds with a 32-byte entropy draw; `CTRDRBG._reseed` demands
entropy of exactly `seedlen = (128 + keylen) / 8` bytes, so for the
192- and 256-bit key variants (`seedlen` 40 and 48) the recovery path
fails with the entropy-length `ValueError` (which the wrapper does not
catch), while for the 128-bit variant (`seedlen` 32) the same reseed
succeeds and resets the counter to 1. -/
theorem ctr_autoreseed_only_aes128
    (encrypt : Bytes → Bytes → Bytes) (urandom : Nat → Bytes) (st : CTRState)
    (fuel count k : Nat)
    (hur : ∀ j, (urandom j).length = 32)
    (henc : ∀ kb b, (encrypt kb b).length = 16)
    (hcnt : st.reseed_counter > RESEED_INTERVAL)
    (h1 : 0 < count) (h2 : count < ctrMaxRequestSize) :
    (st.keylen = 192 ∨ st.keylen = 256 →
      getBytes (ctrGenerate encrypt) (fun s e => ctrReseed encrypt s e none)
        ctrMaxRequestSize urandom (fuel + 1) st count k
        = .error .entropyLength) ∧
    (st.keylen = 128 →
      ∃ st', ctrReseed encrypt st (urandom k) none = .ok st'
        ∧ st'.reseed_counter = 1) := by
  constructor
  · intro hk
    have hgen : ctrGenerate encrypt st count none = .error .reseedRequired :=
      (drbgGenerate_reseedRequired_iff _ _ _ _ _ _ _
        (ctrGenBody_ne_reseedRequired _ _ _ _)).mpr ⟨⟨h1, h2⟩, rfl, hcnt⟩
    have hres : ctrReseed encrypt st (urandom k) none = .error .entropyLength := by
      have hsl : ctrSeedlen st.keylen = 40 ∨ ctrSeedlen st.keylen = 48 := by
        rcases hk with hk | hk <;> simp [ctrSeedlen, hk]
      simp only [ctrReseed, drbgReseed, ctrReseedBody, truthy]
      rcases hsl with hsl | hsl <;> simp [hsl, hur]
    rw [getBytes]
    rw [if_neg (by omega)]
    have hc : (if count > ctrMaxRequestSize then ctrMaxRequestSize else count)
        = count := by
      rw [if_neg (by omega)]
    rw [hc]
    simp only [hgen, hres]
  · intro hk
    have hsl : ctrSeedlen st.keylen = 32 := by simp [ctrSeedlen, hk]
    obtain ⟨⟨K, V⟩, hp⟩ := ctrUpdate_ok encrypt st.keylen (urandom k) st.key st.V
      henc (by rw [hsl]; norm_num)
    refine ⟨{ st with key := K, V := V, reseed_counter := 1 }, ?_, rfl⟩
    simp only [ctrReseed, drbgReseed, ctrReseedBody, truthy]
    simp [hsl, hur, hp]

theorem ctr_autoreseed_only_aes128_witness :
    (∀ j, (cUr0 j).length = 32) ∧ (∀ kb b, (cEnc0 kb b).length = 16) ∧
    (⟨192, List.replicate 24 0, List.replicate 16 0, 3⟩ : CTRState).reseed_counter
      > RESEED_INTERVAL ∧
    getBytes (ctrGenerate cEnc0) (fun s e => ctrReseed cEnc0 s e none)
      ctrMaxRequestSize cUr0 4 ⟨192, List.replicate 24 0, List.replicate 16 0, 3⟩ 5 0
      = .error .entropyLength := by
  have hur : ∀ j, (cUr0 j).length = 32 := fun j => by simp [cUr0]
  have henc : ∀ kb b, (cEnc0 kb b).length = 16 := fun kb b => by simp [cEnc0]
  refine ⟨hur, henc, by decide, ?_⟩
  exact (ctr_autoreseed_only_aes128 cEnc0 cUr0
    ⟨192, List.replicate 24 0, List.replicate 16 0, 3⟩ 3 5 0 hur henc
    (by decide) (by decide) (by decide)).1 (Or.inl rfl)

end Drbg
